import Mathlib

/-!
Verification of the "Gonçalinho" chat backend (Express server `server.js`,
client `streamResponse` in `services/geminiService`, `services/db.ts`).

Strings of the JavaScript program are embedded as `List Char` (`Str`);
JavaScript string operations (`toLowerCase`, `split(' ')`, `includes`,
`slice`, template literals) are executable Lean functions on `Str`.  The
HTTP layer is embedded as explicit state passing over a `ServerState`;
external collaborators (the Gemini stream, the file-format readers,
`JSON.parse`) are parameters of the corresponding functions, so the theorems
hold for every behaviour of those collaborators.  All functions are total:
"never throws"/"never crashes" is reflected by totality plus the explicit
error results that the code produces on its catch paths.
-/

set_option maxRecDepth 10000

/-- Strings of the JavaScript program, embedded as lists of characters. -/
abbrev Str := List Char

/-- JS `s.toLowerCase()`: lowercase every character (the server only ever
compares lowercased data against lowercased data). -/
def toLowerStr (s : Str) : Str := s.map Char.toLower

/-- JS `s.split(sep)` for a single-character separator: split at every
occurrence; `"".split(sep) = [""]` and separators at the ends produce empty
fragments, exactly as in JavaScript. -/
def splitOnChar (c : Char) : Str → List Str
  | [] => [[]]
  | x :: xs =>
    let r := splitOnChar c xs
    if x = c then [] :: r
    else (x :: r.headD []) :: r.tail

/-- Splitting at every character satisfying a predicate (used only for the
claim-side "tokenize by whitespace" definition). -/
def splitOnP (p : Char → Bool) : Str → List Str
  | [] => [[]]
  | x :: xs =>
    let r := splitOnP p xs
    if p x then [] :: r
    else (x :: r.headD []) :: r.tail

/-- JS `haystack.includes(needle)`: substring containment. -/
def strIncludes (haystack needle : Str) : Bool := decide (needle <:+: haystack)

/-- JS `l.join('')` / chunk accumulation `fullText += chunkText`. -/
def concatStrs (l : List Str) : Str := l.foldl (fun acc c => acc ++ c) []

/-! ## Data model: `FileRecord` (server.js upload handler, lines 162–174) -/

/-- One record of the Document Collection, as created by `POST /api/upload`. -/
structure FileRecord where
  id : Str
  name : Str
  path : Str
  type : Str
  content : Str
  timestamp : Nat
  category : Str
  description : Str
  source : Str
  period : Str
  caseName : Str
deriving DecidableEq, Repr

/-! ## Relevance Selector (server.js, `/api/ask` lines 253–291) -/

/-- `MAX_CONTEXT_CHARS` (server.js line 253). -/
def MAX_CONTEXT_CHARS : Nat := 250000

/-- `message.toLowerCase().split(' ').filter(w => w.length > 3)`
(server.js line 256). -/
def keywords (message : Str) : List Str :=
  (splitOnChar ' ' (toLowerStr message)).filter (fun w => w.length > 3)

/-- `` `${f.name} ${f.caseName} ${f.category} ${f.description}`.toLowerCase() ``
(server.js line 260). -/
def fullMeta (f : FileRecord) : Str :=
  toLowerStr (f.name ++ [' '] ++ f.caseName ++ [' '] ++ f.category ++ [' '] ++ f.description)

/-- The per-file relevance score: `+10` for every keyword occurring as a
substring of `fullMeta`; the `content` field is not consulted
(server.js lines 259–265). -/
def score (message : Str) (f : FileRecord) : Nat :=
  (keywords message).foldl
    (fun s k => if strIncludes (fullMeta f) k then s + 10 else s) 0

/-- `db.files.map(f => ({file: f, score})).sort((a, b) => b.score - a.score)`
(server.js lines 258–266): a stable sort, descending by score
(JavaScript `Array.prototype.sort` is stable). -/
def sortedFiles (message : Str) (files : List FileRecord) : List (FileRecord × Nat) :=
  (files.map (fun f => (f, score message f))).mergeSort
    (fun a b => decide (b.2 ≤ a.2))

/-- The per-document context block template (server.js lines 276–284), with
the content capped at its first 30,000 characters
(`f.content ? f.content.slice(0, 30000) : ''`; for empty content both JS
branches give the empty snippet, as does `List.take`). -/
def fileBlock (f : FileRecord) : Str :=
  "\n--- ARQUIVO: ".data ++ f.name ++
  " ---\nMETADADOS: Categoria: ".data ++ f.category ++
  ", Indicador: ".data ++ f.caseName ++
  ", Periodo: ".data ++ f.period ++
  ", Fonte: ".data ++ f.source ++
  ", Desc: ".data ++ f.description ++
  "\nCONTEUDO:\n".data ++ f.content.take 30000 ++
  " \n--- FIM ARQUIVO ---\n".data

/-- The greedy packing loop (server.js lines 269–291): add each block while
`currentChars + fileBlock.length < MAX_CONTEXT_CHARS`, `break` otherwise. -/
def packLoop (budget : Nat) : Nat → Str → List (FileRecord × Nat) → Str
  | _, acc, [] => acc
  | cur, acc, item :: rest =>
    let b := fileBlock item.1
    if cur + b.length < budget then packLoop budget (cur + b.length) (acc ++ b) rest
    else acc

/-- `selectedContext` as assembled by `/api/ask` (server.js lines 269–291). -/
def selectedContext (message : Str) (files : List FileRecord) : Str :=
  packLoop MAX_CONTEXT_CHARS 0 [] (sortedFiles message files)

/-- Concatenation of the context blocks of a list of scored files (used to
state that the packed context consists of whole blocks of a prefix). -/
def blocksConcat : List (FileRecord × Nat) → Str
  | [] => []
  | p :: r => fileBlock p.1 ++ blocksConcat r

/-! ## Claim-side scoring definition (refinement comparison for C2)

`scoreClaimC2` follows the claim's wording literally: tokenize the query by
whitespace, discard tokens shorter than 4 characters, lowercase the remaining
tokens, and add 10 points per token occurring as a substring
(case-insensitively) of the concatenation of `name`, `caseName`, `category`
and `description`. -/

/-- The metadata string exactly as the claim words it: the concatenation of
`name`, `caseName`, `category` and `description` (lowercased for the
case-insensitive comparison). -/
def metaClaimC2 (f : FileRecord) : Str :=
  toLowerStr (f.name ++ f.caseName ++ f.category ++ f.description)

/-- The relevance score exactly as the claim words it. -/
def scoreClaimC2 (message : Str) (f : FileRecord) : Nat :=
  10 * ((((splitOnP (fun c => c.isWhitespace) message).filter
      (fun w => w.length ≥ 4)).map toLowerStr).countP
    (fun k => strIncludes (metaClaimC2 f) k))

/-! ## Server state and HTTP operations (server.js routes) -/

/-- The mutable state of the server process: the Document Collection
(`db.json`), the `NodeCache` contents (within the TTL window, so no expiry
happens between the operations under study), and a counter of upstream
Gemini calls (for the "exactly one upstream call" observations). -/
structure ServerState where
  files : List FileRecord
  cache : List (Str × Str)
  upstreamCalls : Nat
deriving DecidableEq, Repr

/-- `appCache.get(key)`: the most recently `set` value for the key. -/
def cacheLookup (key : Str) (cache : List (Str × Str)) : Option Str :=
  (cache.find? (fun p => decide (p.1 = key))).map (fun p => p.2)

/-- `` `ask_${message}_${JSON.stringify(history.length)}` ``
(server.js line 232). -/
def cacheKey (message : Str) (historyLen : Nat) : Str :=
  "ask_".data ++ message ++ "_".data ++ (Nat.repr historyLen).data

/-- The `metadata` JSON fields sent with an upload; a field is `none` when
absent from the parsed JSON (JS `undefined`). -/
structure UploadMeta where
  category : Option Str
  description : Option Str
  source : Option Str
  period : Option Str
  caseName : Option Str
deriving DecidableEq, Repr

/-- JS `metadata.field || defaultValue`: the default is used when the field
is absent (`undefined`) or the empty string (both falsy). -/
def orDefault (x : Option Str) (d : Str) : Str :=
  match x with
  | none => d
  | some s => if s = [] then d else s

/-- Node `path.extname` for a slash-free file name: the suffix from the last
dot, or empty when there is no dot or the only dot starts the name. -/
def extname (s : Str) : Str :=
  match (s.enum.filter (fun p => decide (p.2 = '.'))).getLast? with
  | none => []
  | some (i, _) => if i = 0 then [] else s.drop i

/-- `path.extname(req.file.originalname).replace('.', '')`
(server.js line 166). -/
def extTypeOf (name : Str) : Str := (extname name).drop 1

/-- The catch-branch placeholder: `` `Erro ao ler arquivo: ${e.message}` ``
(server.js line 140). -/
def errStrOf (m : Str) : Str := "Erro ao ler arquivo: ".data ++ m

/-- The Excel text assembly (server.js lines 118–126): a header naming the
file and then one labelled CSV section per sheet. -/
def xlsxText (originalName : Str) (sheets : List (Str × Str)) : Str :=
  ("Arquivo Excel: ".data ++ originalName ++ "\n".data) ++
  sheets.foldl
    (fun acc p => acc ++ "\n--- Planilha: ".data ++ p.1 ++ " ---\n".data ++ p.2) []

/-- `extractText` (server.js lines 110–143).  The format-specific external
readers are parameters: `rawRead` is `fs.readFileSync` decoded as UTF-8,
`xlsxRead` the workbook as a list of (sheet name, CSV) pairs, `docxRead` and
`pdfRead` the library text extractions; `Except.error m` means the call threw
with message `m`, which the `catch` turns into the placeholder string. -/
def extractText (rawRead : Except Str Str) (xlsxRead : Except Str (List (Str × Str)))
    (docxRead : Except Str Str) (pdfRead : Except Str Str) (originalName : Str) : Str :=
  let ext := toLowerStr (extname originalName)
  if ext = ".csv".data ∨ ext = ".txt".data ∨ ext = ".json".data then
    match rawRead with
    | .ok t => t
    | .error m => errStrOf m
  else if ext = ".xlsx".data ∨ ext = ".xls".data then
    match xlsxRead with
    | .ok sheets => xlsxText originalName sheets
    | .error m => errStrOf m
  else if ext = ".docx".data then
    match docxRead with
    | .ok t => t
    | .error m => errStrOf m
  else if ext = ".pdf".data then
    match pdfRead with
    | .ok t => t
    | .error m => errStrOf m
  else []

/-- A listed/returned file record: the `{ content, ...rest }` destructuring
(server.js lines 184 and 196–199) drops the `content` field, so the response
shape structurally has no content field at all. -/
structure FileMeta where
  id : Str
  name : Str
  path : Str
  type : Str
  timestamp : Nat
  category : Str
  description : Str
  source : Str
  period : Str
  caseName : Str
deriving DecidableEq, Repr

/-- The projection performed by the `{ content, ...rest }` destructuring. -/
def toMeta (f : FileRecord) : FileMeta :=
  { id := f.id, name := f.name, path := f.path, type := f.type,
    timestamp := f.timestamp, category := f.category,
    description := f.description, source := f.source, period := f.period,
    caseName := f.caseName }

/-- `GET /files` (server.js lines 193–201): all records without content. -/
def listFiles (s : ServerState) : List FileMeta := s.files.map toMeta

/-- The record built by `POST /api/upload` (server.js lines 162–174):
`crypto.randomUUID()` is the `newId` parameter, multer's stored path and the
timestamp are parameters, the content is the extracted text, and the
metadata fields get their `||` defaults. -/
def uploadRec (rawRead : Except Str Str) (xlsxRead : Except Str (List (Str × Str)))
    (docxRead : Except Str Str) (pdfRead : Except Str Str)
    (newId originalName storedPath : Str) (timestamp : Nat) (meta : UploadMeta) :
    FileRecord :=
  { id := newId, name := originalName, path := storedPath,
    type := extTypeOf originalName,
    content := extractText rawRead xlsxRead docxRead pdfRead originalName,
    timestamp := timestamp,
    category := orDefault meta.category "Geral".data,
    description := orDefault meta.description [],
    source := orDefault meta.source [],
    period := orDefault meta.period [],
    caseName := orDefault meta.caseName [] }

/-- `POST /api/upload` (server.js lines 148–190): build the record, append
it to the collection, flush the whole cache, and answer
`{success: true, file}` without the content field.  Returns
(new state, success flag, response record). -/
def uploadStep (rawRead : Except Str Str) (xlsxRead : Except Str (List (Str × Str)))
    (docxRead : Except Str Str) (pdfRead : Except Str Str)
    (newId originalName storedPath : Str) (timestamp : Nat) (meta : UploadMeta)
    (s : ServerState) : ServerState × Bool × FileMeta :=
  let record := uploadRec rawRead xlsxRead docxRead pdfRead newId originalName
    storedPath timestamp meta
  ({ files := s.files ++ [record], cache := [], upstreamCalls := s.upstreamCalls },
   true, toMeta record)

/-- The side effects performed by `DELETE /files/:id` besides the state
change: whether `writeDb` ran, whether the physical file was unlinked, and
whether `appCache.flushAll()` ran. -/
structure DeleteEffects where
  wroteDb : Bool
  unlinked : Bool
  flushed : Bool
deriving DecidableEq, Repr

/-- `DELETE /files/:id` (server.js lines 204–220): find the first record with
the id; when found, best-effort unlink (`physicalExists` abstracts
`fs.existsSync`), remove it, rewrite the collection and flush the cache;
either way answer `{success: true}`.  Returns
(new state, success flag, effects). -/
def deleteStep (id : Str) (physicalExists : Str → Bool) (s : ServerState) :
    ServerState × Bool × DeleteEffects :=
  match s.files.find? (fun f => decide (f.id = id)) with
  | some f =>
    ({ files := s.files.eraseP (fun g => decide (g.id = id)), cache := [],
       upstreamCalls := s.upstreamCalls },
     true,
     { wroteDb := true, unlinked := physicalExists f.path, flushed := true })
  | none =>
    (s, true, { wroteDb := false, unlinked := false, flushed := false })

/-- An error thrown by the upstream Gemini call (`status` plus message). -/
structure GemErr where
  status : Nat
  message : Str
deriving Repr

/-- The outcome of one upstream streaming call: the text chunks delivered
before completion, and `some e` when the stream then failed with `e`. -/
structure GemOutcome where
  chunks : List Str
  failure : Option GemErr

/-- The rate-limit test (server.js line 351). -/
def is429 (e : GemErr) : Bool :=
  decide (e.status = 429) || strIncludes e.message "429".data ||
    strIncludes e.message "quota".data

/-- The apology appended on a rate-limit failure (server.js line 352). -/
def rateLimitMsg : Str :=
  "\n\n⚠️ *O sistema está com alto volume de dados (Limite de Cota Atingido). Por favor, aguarde 30 segundos e tente novamente com uma pergunta mais específica.*".data

/-- The apology appended on any other upstream failure (server.js line 354). -/
def genericErrMsg : Str :=
  "\n\n[Sistema] Erro ao processar resposta da IA. Verifique logs do servidor.".data

/-- The history filter `h.role === 'user' || h.role === 'model'`
(server.js lines 313–314); a history entry is a (role, text) pair. -/
def chatHistory (history : List (Str × Str)) : List (Str × Str) :=
  history.filter (fun h => decide (h.1 = "user".data) || decide (h.1 = "model".data))

/-- What `/api/ask` sends back: either an HTTP JSON error (status, message),
or a normally-closed `text/plain` 200 stream whose full body is given. -/
inductive AskResponse where
  | jsonError (status : Nat) (body : Str)
  | stream (body : Str)
deriving DecidableEq, Repr

/-- `POST /api/ask` (server.js lines 223–358).  `gemini` abstracts the
upstream streaming call: it receives the assembled context, the filtered
history and the user message.  Mirrors: the API-key guard, the cache
lookup/replay, the fresh call (counted in `upstreamCalls`), the accumulation
of chunks, caching of nonempty successful answers, and the catch branch that
appends an apology to the partial text and ends the stream normally. -/
def askStep (apiKey : Option Str)
    (gemini : Str → List (Str × Str) → Str → GemOutcome)
    (message : Str) (history : List (Str × Str)) (s : ServerState) :
    ServerState × AskResponse :=
  match apiKey with
  | none => (s, .jsonError 500 "Server API Key missing".data)
  | some _ =>
    let key := cacheKey message history.length
    match cacheLookup key s.cache with
    | some cached => (s, .stream cached)
    | none =>
      let ctx := selectedContext message s.files
      let out := gemini ctx (chatHistory history) message
      let fullText := concatStrs out.chunks
      match out.failure with
      | some e =>
        ({ s with upstreamCalls := s.upstreamCalls + 1 },
         .stream (fullText ++ (if is429 e then rateLimitMsg else genericErrMsg)))
      | none =>
        ({ s with
            upstreamCalls := s.upstreamCalls + 1
            cache := if fullText.length > 0 then (key, fullText) :: s.cache
                     else s.cache },
         .stream fullText)

/-! ## Chart Extractor (client `streamResponse`, post-processing lines 34–54)

JSON values; `JSON.parse` itself is an external collaborator and is a
parameter of `extractChart` (an `Option Json`-valued function, `none` for a
parse error). -/

/-- A parsed JSON value (numbers are modelled as integers; none of the
control flow under study inspects numeric values beyond truthiness). -/
inductive Json where
  | null
  | bool (b : Bool)
  | num (n : Int)
  | str (s : Str)
  | arr (elems : List Json)
  | obj (fields : List (Str × Json))

/-- JS truthiness of a JSON value (`if (parsed.chart)`,
`parsed.message || …`). -/
def truthy : Json → Bool
  | .null => false
  | .bool b => b
  | .num n => decide (n ≠ 0)
  | .str s => decide (s ≠ [])
  | .arr _ => true
  | .obj _ => true

/-- JS property access `parsed.key` on a parsed JSON value: `none` is
`undefined` (falsy). -/
def getField (j : Json) (key : Str) : Option Json :=
  match j with
  | .obj fields => (fields.find? (fun p => decide (p.1 = key))).map (fun p => p.2)
  | _ => none

/-- `fullText.match(/\{[\s\S]*\}/)`: the greedy brace-delimited match — from
the first opening brace to the last closing brace, provided the latter comes
after the former; otherwise no match. -/
def braceMatch (s : Str) : Option Str :=
  match s.findIdx? (fun c => decide (c = '{')),
        (s.enum.filter (fun p => decide (p.2 = '}'))).getLast? with
  | some i, some (j, _) => if i < j then some ((s.drop i).take (j - i + 1)) else none
  | _, _ => none

/-- Dropping a run of whitespace (the `\s*` of the fence-stripping regexes). -/
def dropWsRun (s : Str) : Str := s.dropWhile (fun c => c.isWhitespace)

/-- One global regex replacement of `pat` followed by a whitespace run with
the empty string, scanning left to right.  `fuel` only bounds the recursion:
every step consumes at least one character, so `s.length` fuel is always
enough (the callers pass exactly that). -/
def stripRun (pat : Str) : Nat → Str → Str
  | 0, s => s
  | _, [] => []
  | fuel + 1, c :: cs =>
    if pat <+: (c :: cs) then
      stripRun pat fuel (dropWsRun ((c :: cs).drop pat.length))
    else c :: stripRun pat fuel cs

/-- `.replace(/```json\s*/g, "").replace(/```\s*/g, "")`
(streamResponse line 39). -/
def stripFences (s : Str) : Str :=
  let s1 := stripRun "```json".data s.length s
  stripRun "```".data s1.length s1

/-- What `streamResponse` returns after post-processing: the display value
(`text:` — the raw JS value, a string in every reachable case) and the
optional chart data. -/
structure ChartResult where
  text : Json
  chartData : Option Json

/-- The chart post-processing of `streamResponse` (lines 34–54): brace-match,
strip fences, parse, and on a truthy `chart` field return it together with
`parsed.message || (fullText.includes("```") ? "Gráfico gerado:" : fullText)`;
in every other case (no match, parse error caught, absent or falsy `chart`)
return the original full text with no chart.  Total: nothing throws. -/
def extractChart (parseJson : Str → Option Json) (fullText : Str) : ChartResult :=
  match braceMatch fullText with
  | none => { text := .str fullText, chartData := none }
  | some m =>
    let cleanJson := stripFences m
    match parseJson cleanJson with
    | none => { text := .str fullText, chartData := none }
    | some parsed =>
      match getField parsed "chart".data with
      | none => { text := .str fullText, chartData := none }
      | some chartVal =>
        if truthy chartVal then
          { text :=
              match getField parsed "message".data with
              | some msgVal =>
                if truthy msgVal then msgVal
                else if strIncludes fullText "```".data then .str "Gráfico gerado:".data
                else .str fullText
              | none =>
                if strIncludes fullText "```".data then .str "Gráfico gerado:".data
                else .str fullText,
            chartData := some chartVal }
        else { text := .str fullText, chartData := none }

/-- Models `JSON.parse` at the two points probed concretely:
`JSON.parse('{"chart":true,"message":""}')` is the object with a `chart`
field `true` and a `message` field `""`, and `JSON.parse('{"chart":0}')` is
the object with the (falsy) `chart` field `0`; elsewhere unspecified
(`none`). -/
def parseCE : Str → Option Json := fun s =>
  if s = "\x7b\"chart\":true,\"message\":\"\"\x7d".data then
    some (.obj [("chart".data, .bool true), ("message".data, .str [])])
  else if s = "\x7b\"chart\":0\x7d".data then
    some (.obj [("chart".data, .num 0)])
  else none

/-! ## Concrete sample data used by witnesses and counterexamples -/

/-- A concrete uploaded record (education data). -/
def sampleA : FileRecord :=
  { id := "id-a".data, name := "Educacao 2023.csv".data, path := "/tmp/a".data,
    type := "csv".data, content := "ano,valor\n2023,10".data, timestamp := 1,
    category := "Geral".data, description := "indicadores educacao".data,
    source := "INEP".data, period := "2023".data, caseName := "Matriculas".data }

/-- A second concrete uploaded record (health data). -/
def sampleB : FileRecord :=
  { id := "id-b".data, name := "Saude.xlsx".data, path := "/tmp/b".data,
    type := "xlsx".data, content := "mes,consultas\njan,5".data, timestamp := 2,
    category := "Saude".data, description := "consultas".data,
    source := "DATASUS".data, period := "2024".data, caseName := "Consultas".data }

/-! # Theorems

First the auxiliary lemmas, then one theorem per claim (with witnesses and
counterexamples where required). -/

theorem splitOnChar_ne_nil (c : Char) (s : Str) : splitOnChar c s ≠ [] := by
  cases s with
  | nil => simp [splitOnChar]
  | cons x xs =>
    simp only [splitOnChar]
    split <;> simp

/-- `toLowerCase` commutes with splitting on a separator that lowercasing
neither creates nor destroys. -/
theorem splitOnChar_map_of_pres (f : Char → Char) (c : Char)
    (hf : ∀ x, f x = c ↔ x = c) (s : Str) :
    splitOnChar c (s.map f) = (splitOnChar c s).map (List.map f) := by
  induction s with
  | nil => simp [splitOnChar]
  | cons x xs ih =>
    simp only [List.map_cons, splitOnChar, ih]
    by_cases hx : x = c
    · rw [if_pos ((hf x).mpr hx), if_pos hx]
      simp
    · rw [if_neg (fun h => hx ((hf x).mp h)), if_neg hx]
      obtain ⟨t, ts, h⟩ : ∃ t ts, splitOnChar c xs = t :: ts := by
        cases hsp : splitOnChar c xs with
        | nil => exact absurd hsp (splitOnChar_ne_nil c xs)
        | cons a b => exact ⟨a, b, rfl⟩
      rw [h]
      simp

theorem toNat_char_ofNat_of_valid {m : Nat} (h : m < 55296) :
    (Char.ofNat m).toNat = m := by
  unfold Char.ofNat
  rw [dif_pos (Or.inl h)]
  rfl

/-- `Char.toLower` fixes the space character and maps nothing else to it. -/
theorem toLower_eq_space_iff (x : Char) : Char.toLower x = ' ' ↔ x = ' ' := by
  unfold Char.toLower
  by_cases hc : x.toNat ≥ 65 ∧ x.toNat ≤ 90
  · rw [if_pos hc]
    constructor
    · intro h
      have h2 := congrArg Char.toNat h
      rw [toNat_char_ofNat_of_valid (by omega)] at h2
      have h3 : Char.toNat ' ' = 32 := rfl
      rw [h3] at h2
      omega
    · intro h
      subst h
      exact absurd hc (by decide)
  · rw [if_neg hc]

theorem foldl_add10_eq_countP (p : Str → Bool) (l : List Str) (n : Nat) :
    l.foldl (fun s k => if p k then s + 10 else s) n = n + 10 * l.countP p := by
  induction l generalizing n with
  | nil => simp
  | cons a l ih =>
    simp only [List.foldl_cons, List.countP_cons, ih]
    by_cases h : p a = true
    · simp only [h, if_pos]
      omega
    · simp only [h, if_neg, Bool.false_eq_true, not_false_eq_true, if_false]
      omega

/-- The keyword list computed by the server equals: split the raw message on
the space character, keep tokens of length at least 4, lowercase them. -/
theorem keywords_eq_claim (m : Str) :
    keywords m = ((splitOnChar ' ' m).filter (fun w => w.length ≥ 4)).map toLowerStr := by
  unfold keywords toLowerStr
  rw [splitOnChar_map_of_pres Char.toLower ' ' toLower_eq_space_iff]
  rw [List.filter_map]
  congr 1
  apply List.filter_congr
  intro w _
  simp only [Function.comp_apply, List.length_map, decide_eq_decide]
  omega

theorem score_eq_countP (m : Str) (f : FileRecord) :
    score m f = 10 * (keywords m).countP (fun k => strIncludes (fullMeta f) k) := by
  unfold score
  rw [foldl_add10_eq_countP]
  simp

theorem fileBlock_ne_nil (f : FileRecord) : fileBlock f ≠ [] := by
  unfold fileBlock
  have h : "\n--- ARQUIVO: ".data = '\n' :: "--- ARQUIVO: ".data := rfl
  rw [h]
  simp

theorem packLoop_length_le (budget : Nat) :
    ∀ (l : List (FileRecord × Nat)) (cur : Nat) (acc : Str),
      acc.length = cur → cur ≤ budget → (packLoop budget cur acc l).length ≤ budget := by
  intro l
  induction l with
  | nil =>
    intro cur acc h hb
    simpa [packLoop, h] using hb
  | cons item rest ih =>
    intro cur acc h hb
    simp only [packLoop]
    split
    · rename_i hlt
      exact ih (cur + (fileBlock item.1).length) (acc ++ fileBlock item.1)
        (by simp [h]) (le_of_lt hlt)
    · exact h ▸ hb

/-- The packing loop produces the concatenation of the whole blocks of a
prefix of its input, and when it stops before the end, adding the very next
block would reach or exceed the budget. -/
theorem packLoop_take (budget : Nat) :
    ∀ (l : List (FileRecord × Nat)) (cur : Nat) (acc : Str),
      ∃ n, n ≤ l.length ∧
        packLoop budget cur acc l = acc ++ blocksConcat (l.take n) ∧
        ∀ (h : n < l.length),
          budget ≤ cur + (blocksConcat (l.take n)).length +
            (fileBlock (l.get ⟨n, h⟩).1).length := by
  intro l
  induction l with
  | nil =>
    intro cur acc
    exact ⟨0, Nat.le_refl 0, by simp [packLoop, blocksConcat],
      fun h => absurd h (by simp)⟩
  | cons item rest ih =>
    intro cur acc
    by_cases hlt : cur + (fileBlock item.1).length < budget
    · obtain ⟨n, hn, heq, hstop⟩ := ih (cur + (fileBlock item.1).length) (acc ++ fileBlock item.1)
      refine ⟨n + 1, by simpa using hn, ?_, ?_⟩
      · simp only [packLoop]
        rw [if_pos hlt, heq, List.take_succ_cons]
        simp [blocksConcat]
      · intro h
        have h' : n < rest.length := by simpa using h
        have hs := hstop h'
        simp only [List.take_succ_cons, blocksConcat, List.length_append,
          List.get_cons_succ]
        omega
    · refine ⟨0, by simp, ?_, ?_⟩
      · simp only [packLoop]
        rw [if_neg hlt]
        simp [blocksConcat]
      · intro h
        have hg : (item :: rest).get ⟨0, h⟩ = item := rfl
        simp only [List.take_zero, blocksConcat, List.length_nil, hg]
        omega

/-- Claim C1: for every query and document collection, the assembled context
has total character length at most the configured budget
(`MAX_CONTEXT_CHARS = 250000`); the context is exactly the concatenation of
the whole fixed-template blocks (`fileBlock`, which embeds at most the first
30,000 characters of the content) of a prefix of the score-sorted list; and
when that prefix is proper, the walk stopped at the first block whose
addition would reach or exceed the budget, so that block's document and all
later documents are omitted entirely, never truncated. -/
theorem relevance_context_C1 (m : Str) (files : List FileRecord) :
    (selectedContext m files).length ≤ MAX_CONTEXT_CHARS ∧
    ∃ n, n ≤ (sortedFiles m files).length ∧
      selectedContext m files = blocksConcat ((sortedFiles m files).take n) ∧
      ∀ (h : n < (sortedFiles m files).length),
        MAX_CONTEXT_CHARS ≤ (blocksConcat ((sortedFiles m files).take n)).length +
          (fileBlock (((sortedFiles m files).get ⟨n, h⟩).1)).length := by
  constructor
  · exact packLoop_length_le MAX_CONTEXT_CHARS (sortedFiles m files) 0 [] rfl
      (Nat.zero_le _)
  · obtain ⟨n, hn, heq, hstop⟩ := packLoop_take MAX_CONTEXT_CHARS (sortedFiles m files) 0 []
    exact ⟨n, hn, by simpa using heq, fun h => by have hs := hstop h; simpa using hs⟩

/-- Witness for C1 at a concrete query and collection. -/
theorem relevance_context_C1_witness :
    (selectedContext "dados educacao".data [sampleA, sampleB]).length ≤ MAX_CONTEXT_CHARS :=
  (relevance_context_C1 "dados educacao".data [sampleA, sampleB]).1

/-- Claim C2 counterexample: the claim's tokenization ("by whitespace") and
metadata string ("the concatenation of name, caseName, category and
description") both disagree with the code.  First input: the query
`"aa\tbb"` is a single length-5 token for the code (which splits on the
space character only), but two discarded short tokens under whitespace
tokenization, so the code scores 10 where the claim computes 0.  Second
input: the token `"cdef"` spans the name/caseName boundary, which the plain
concatenation `"abcdef"` contains but the code's space-separated metadata
string `"abc def  "` does not, so the code scores 0 where the claim
computes 10. -/
theorem scoring_C2_counterexample :
    score "aa\tbb".data
        { id := [], name := "xx aa\tbb".data, path := [], type := [], content := [],
          timestamp := 0, category := [], description := [], source := [],
          period := [], caseName := [] } ≠
      scoreClaimC2 "aa\tbb".data
        { id := [], name := "xx aa\tbb".data, path := [], type := [], content := [],
          timestamp := 0, category := [], description := [], source := [],
          period := [], caseName := [] } ∧
    score "cdef".data
        { id := [], name := "abc".data, path := [], type := [], content := [],
          timestamp := 0, category := [], description := [], source := [],
          period := [], caseName := "def".data } ≠
      scoreClaimC2 "cdef".data
        { id := [], name := "abc".data, path := [], type := [], content := [],
          timestamp := 0, category := [], description := [], source := [],
          period := [], caseName := "def".data } := by
  decide

/-- Claim C2 (amended): the query is lowercased and split on the space
character only (not general whitespace); tokens shorter than 4 characters
are discarded; the score is exactly 10 points per remaining token occurring
as a substring of the lowercased space-separated concatenation of `name`,
`caseName`, `category` and `description`; and the `content` field never
influences the score. -/
theorem scoring_C2_amended (m : Str) (f : FileRecord) :
    score m f =
      10 * ((((splitOnChar ' ' m).filter (fun w => w.length ≥ 4)).map toLowerStr).countP
        (fun k => strIncludes (fullMeta f) k)) ∧
    ∀ c : Str, score m { f with content := c } = score m f := by
  constructor
  · rw [score_eq_countP, keywords_eq_claim]
  · intro c
    rfl

/-- Claim C3: the Relevance Selector's sort is descending by score, is a
permutation of the scored input (scores attached in input order), is stable
(two entries with equal score that appear in order in the scored input
appear in the same order in the output), and a document whose metadata
matches no keyword scores 0; consequently an entry that precedes another in
the output never has the smaller score, so a zero-scored document is never
placed ahead of a positively-scored one. -/
theorem sorting_C3 (m : Str) (files : List FileRecord) :
    (sortedFiles m files).Pairwise (fun a b => b.2 ≤ a.2) ∧
    (sortedFiles m files).Perm (files.map (fun f => (f, score m f))) ∧
    (∀ a b : FileRecord × Nat, a.2 = b.2 →
      List.Sublist [a, b] (files.map (fun f => (f, score m f))) →
      List.Sublist [a, b] (sortedFiles m files)) ∧
    (∀ f : FileRecord,
      (∀ k ∈ keywords m, strIncludes (fullMeta f) k = false) → score m f = 0) ∧
    (∀ a b : FileRecord × Nat,
      List.Sublist [a, b] (sortedFiles m files) → a.2 = 0 → b.2 = 0) := by
  have htrans : ∀ (a b c : FileRecord × Nat), decide (b.2 ≤ a.2) = true →
      decide (c.2 ≤ b.2) = true → decide (c.2 ≤ a.2) = true := by
    intro a b c hab hbc
    simp only [decide_eq_true_eq] at hab hbc ⊢
    omega
  have htotal : ∀ (a b : FileRecord × Nat),
      (decide (b.2 ≤ a.2) || decide (a.2 ≤ b.2)) = true := by
    intro a b
    simp only [Bool.or_eq_true, decide_eq_true_eq]
    omega
  have hPair : (sortedFiles m files).Pairwise (fun a b => b.2 ≤ a.2) := by
    have hs := List.sorted_mergeSort htrans htotal (files.map (fun f => (f, score m f)))
    exact hs.imp (fun h => by simpa using h)
  refine ⟨hPair, ?_, ?_, ?_, ?_⟩
  · exact List.mergeSort_perm _ _
  · intro a b heq hsub
    exact List.pair_sublist_mergeSort htrans htotal (by simp [heq]) hsub
  · intro f h
    rw [score_eq_countP]
    rw [List.countP_eq_zero.mpr (fun k hk => by simp [h k hk])]
  · intro a b hsub ha
    have hp := List.Pairwise.sublist hsub hPair
    rw [List.pairwise_pair] at hp
    omega

/-- Witness for C3: two concrete equal-scored records keep their input order
through the sort. -/
theorem sorting_C3_witness :
    List.Sublist [(sampleA, 0), (sampleB, 0)] (sortedFiles "oi".data [sampleA, sampleB]) := by
  have hmap : [sampleA, sampleB].map (fun f => (f, score "oi".data f)) =
      [(sampleA, 0), (sampleB, 0)] := by decide
  exact (sorting_C3 "oi".data [sampleA, sampleB]).2.2.1 (sampleA, 0) (sampleB, 0) rfl
    (hmap ▸ List.Sublist.refl _)

/-- Claim C9: when every space-separated token of the query is shorter than
4 characters (including the empty query), every document scores 0, the
stable sort leaves the scored collection in its original insertion order,
the assembled context is the greedy packing of the documents' blocks in
insertion order, and as long as the collection is nonempty and its first
block fits under the budget the selector returns a nonempty context. -/
theorem no_tokens_C9 (m : Str) (files : List FileRecord)
    (h : ∀ t ∈ splitOnChar ' ' m, t.length < 4) :
    (∀ f, score m f = 0) ∧
    sortedFiles m files = files.map (fun f => (f, 0)) ∧
    selectedContext m files = packLoop MAX_CONTEXT_CHARS 0 [] (files.map (fun f => (f, 0))) ∧
    ∀ f rest, files = f :: rest → (fileBlock f).length < MAX_CONTEXT_CHARS →
      selectedContext m files ≠ [] := by
  have hk : keywords m = [] := by
    rw [keywords_eq_claim]
    have hfil : (splitOnChar ' ' m).filter (fun w => decide (w.length ≥ 4)) = [] := by
      rw [List.filter_eq_nil_iff]
      intro w hw
      have := h w hw
      simp only [decide_eq_true_eq]
      omega
    rw [hfil]
    rfl
  have hscore : ∀ f, score m f = 0 := by
    intro f
    rw [score_eq_countP, hk]
    rfl
  have hmap : files.map (fun f => (f, score m f)) = files.map (fun f => (f, 0)) := by
    apply List.map_congr_left
    intro f _
    rw [hscore f]
  have hsorted : sortedFiles m files = files.map (fun f => (f, 0)) := by
    unfold sortedFiles
    rw [hmap]
    apply List.mergeSort_of_sorted
    rw [List.pairwise_map]
    exact List.pairwise_of_forall (fun a b => by simp)
  refine ⟨hscore, hsorted, ?_, ?_⟩
  · unfold selectedContext
    rw [hsorted]
  · intro f rest hfiles hlen
    subst hfiles
    unfold selectedContext
    rw [hsorted]
    simp only [List.map_cons, packLoop]
    rw [if_pos (by simpa using hlen)]
    obtain ⟨n, _, heq, _⟩ := packLoop_take MAX_CONTEXT_CHARS
      (rest.map (fun f => (f, 0))) (0 + (fileBlock f).length) ([] ++ fileBlock f)
    rw [heq]
    simp only [List.nil_append, ne_eq, List.append_eq_nil]
    intro hcontra
    exact fileBlock_ne_nil f hcontra.1

/-- Witness for C9: a short-token query over a concrete collection. -/
theorem no_tokens_C9_witness :
    score "oi ok de".data sampleA = 0 ∧
    sortedFiles "oi ok de".data [sampleA, sampleB] = [(sampleA, 0), (sampleB, 0)] ∧
    selectedContext "oi ok de".data [sampleA, sampleB] ≠ [] := by
  have h := no_tokens_C9 "oi ok de".data [sampleA, sampleB] (by decide)
  refine ⟨h.1 sampleA, ?_, ?_⟩
  · rw [h.2.1]
    rfl
  · exact h.2.2.2 sampleA [sampleB] rfl (by decide)

/-- Claim C6: `extractText` dispatches case-insensitively on the declared
extension (all branch conditions compare the lowercased extension); any
extension outside {.csv, .txt, .json, .xlsx, .xls, .docx, .pdf} yields the
empty string; any reader failure on a supported extension is caught and
yields the human-readable placeholder `Erro ao ler arquivo: …` instead of
propagating; and in both cases the enclosing upload still succeeds and
stores that string as the new record's content. -/
theorem extract_C6 (ra : Except Str Str) (xl : Except Str (List (Str × Str)))
    (dx pf : Except Str Str) (name : Str) :
    (toLowerStr (extname name) ∉
        [".csv".data, ".txt".data, ".json".data, ".xlsx".data, ".xls".data,
         ".docx".data, ".pdf".data] →
      extractText ra xl dx pf name = []) ∧
    (∀ m, (toLowerStr (extname name) = ".csv".data ∨
        toLowerStr (extname name) = ".txt".data ∨
        toLowerStr (extname name) = ".json".data) → ra = .error m →
      extractText ra xl dx pf name = errStrOf m) ∧
    (∀ m, (toLowerStr (extname name) = ".xlsx".data ∨
        toLowerStr (extname name) = ".xls".data) → xl = .error m →
      extractText ra xl dx pf name = errStrOf m) ∧
    (∀ m, toLowerStr (extname name) = ".docx".data → dx = .error m →
      extractText ra xl dx pf name = errStrOf m) ∧
    (∀ m, toLowerStr (extname name) = ".pdf".data → pf = .error m →
      extractText ra xl dx pf name = errStrOf m) ∧
    (∀ newId spath ts meta s,
      (uploadStep ra xl dx pf newId name spath ts meta s).2.1 = true ∧
      ∃ r : FileRecord,
        (uploadStep ra xl dx pf newId name spath ts meta s).1.files = s.files ++ [r] ∧
        r.content = extractText ra xl dx pf name) := by
  refine ⟨?_, ?_, ?_, ?_, ?_, ?_⟩
  · intro hnot
    simp only [List.mem_cons, List.mem_singleton, not_or] at hnot
    obtain ⟨h1, h2, h3, h4, h5, h6, h7, -⟩ := hnot
    simp only [extractText]
    rw [if_neg (by tauto), if_neg (by tauto), if_neg h6, if_neg h7]
  · intro m hext hra
    subst hra
    simp only [extractText]
    rw [if_pos hext]
  · intro m hext hxl
    subst hxl
    simp only [extractText]
    rcases hext with h | h <;> rw [h] <;>
      rw [if_neg (by decide), if_pos (by decide)]
  · intro m hext hdx
    subst hdx
    simp only [extractText]
    rw [hext]
    rw [if_neg (by decide), if_neg (by decide), if_pos (by decide)]
  · intro m hext hpf
    subst hpf
    simp only [extractText]
    rw [hext]
    rw [if_neg (by decide), if_neg (by decide), if_neg (by decide), if_pos (by decide)]
  · intro newId spath ts meta s
    exact ⟨rfl, ⟨_, rfl, rfl⟩⟩

/-- Witness for C6: a `.zip` upload yields empty content and still succeeds,
and a corrupt `.PDF` (uppercase extension) yields the placeholder string. -/
theorem extract_C6_witness :
    extractText (.error "e1".data) (.error "e2".data) (.error "e3".data)
      (.error "e4".data) "backup.zip".data = [] ∧
    extractText (.error "e1".data) (.error "e2".data) (.error "e3".data)
      (.error "corrompido".data) "laudo.PDF".data =
      "Erro ao ler arquivo: corrompido".data ∧
    (uploadStep (.error "e1".data) (.error "e2".data) (.error "e3".data)
      (.error "e4".data) "id1".data "backup.zip".data "/tmp/z".data 0
      ⟨none, none, none, none, none⟩ ⟨[], [], 0⟩).2.1 = true := by
  refine ⟨?_, ?_, ?_⟩
  · exact (extract_C6 (.error "e1".data) (.error "e2".data) (.error "e3".data)
      (.error "e4".data) "backup.zip".data).1 (by decide)
  · exact (extract_C6 (.error "e1".data) (.error "e2".data) (.error "e3".data)
      (.error "corrompido".data) "laudo.PDF".data).2.2.2.2.1 "corrompido".data
      (by decide) rfl
  · exact ((extract_C6 (.error "e1".data) (.error "e2".data) (.error "e3".data)
      (.error "e4".data) "backup.zip".data).2.2.2.2.2 "id1".data "/tmp/z".data 0
      ⟨none, none, none, none, none⟩ ⟨[], [], 0⟩).1

theorem orDefault_some_nil (d : Str) : orDefault (some d) [] = d := by
  by_cases hd : d = [] <;> simp [orDefault, hd]

theorem orDefault_some_of_ne (d g : Str) (h : d ≠ []) : orDefault (some d) g = d := by
  simp [orDefault, h]

theorem deleteStep_none (id : Str) (pe : Str → Bool) (s : ServerState)
    (h : s.files.find? (fun f => decide (f.id = id)) = none) :
    deleteStep id pe s = (s, true, ⟨false, false, false⟩) := by
  simp only [deleteStep]
  rw [h]

theorem deleteStep_found (id : Str) (pe : Str → Bool) (s : ServerState) (f : FileRecord)
    (h : s.files.find? (fun g => decide (g.id = id)) = some f) :
    deleteStep id pe s =
      ({ files := s.files.eraseP (fun g => decide (g.id = id)), cache := [],
         upstreamCalls := s.upstreamCalls }, true,
       { wroteDb := true, unlinked := pe f.path, flushed := true }) := by
  simp only [deleteStep]
  rw [h]

/-- Claim C7: uploading a file and then listing returns a record with the
same `name`, `category`, `description`, `source`, `period` and `caseName`
(`category` provided nonempty, since JS `||` replaces a falsy category by
"Geral"); neither the upload response nor the listing carries a content
field (both are built by the `{content, ...rest}` projection `toMeta` into
`FileMeta`, a structure with no content field); after deleting that id the
listing no longer includes it (the collection reverts to exactly the prior
files); a second delete of the same id leaves the state unchanged, writes
nothing, and still succeeds; and `DELETE /files/:id` returns
`{success: true}` for every id whatsoever. -/
theorem roundtrip_C7 (ra : Except Str Str) (xl : Except Str (List (Str × Str)))
    (dx pf : Except Str Str) (newId name spath : Str) (ts : Nat)
    (cat desc src per cn : Str) (pe : Str → Bool) (s : ServerState)
    (hcat : cat ≠ []) (hfresh : ∀ f ∈ s.files, f.id ≠ newId) :
    (uploadStep ra xl dx pf newId name spath ts
        ⟨some cat, some desc, some src, some per, some cn⟩ s).2.1 = true ∧
    ((uploadStep ra xl dx pf newId name spath ts
        ⟨some cat, some desc, some src, some per, some cn⟩ s).2.2 =
      toMeta (uploadRec ra xl dx pf newId name spath ts
        ⟨some cat, some desc, some src, some per, some cn⟩) ∧
     toMeta (uploadRec ra xl dx pf newId name spath ts
        ⟨some cat, some desc, some src, some per, some cn⟩) =
       { id := newId, name := name, path := spath, type := extTypeOf name,
         timestamp := ts, category := cat, description := desc, source := src,
         period := per, caseName := cn }) ∧
    listFiles (uploadStep ra xl dx pf newId name spath ts
        ⟨some cat, some desc, some src, some per, some cn⟩ s).1 =
      listFiles s ++ [(uploadStep ra xl dx pf newId name spath ts
        ⟨some cat, some desc, some src, some per, some cn⟩ s).2.2] ∧
    (deleteStep newId pe (uploadStep ra xl dx pf newId name spath ts
        ⟨some cat, some desc, some src, some per, some cn⟩ s).1 =
      (⟨s.files, [], s.upstreamCalls⟩, true,
       ⟨true, pe spath, true⟩) ∧
     (∀ fm ∈ listFiles (deleteStep newId pe (uploadStep ra xl dx pf newId name spath ts
        ⟨some cat, some desc, some src, some per, some cn⟩ s).1).1,
        fm.id ≠ newId)) ∧
    deleteStep newId pe (⟨s.files, [], s.upstreamCalls⟩ : ServerState) =
      (⟨s.files, [], s.upstreamCalls⟩, true, ⟨false, false, false⟩) ∧
    (∀ (anyId : Str) (anyPe : Str → Bool) (anyS : ServerState),
      (deleteStep anyId anyPe anyS).2.1 = true) := by
  have hne : ∀ f ∈ s.files, ¬ (decide (f.id = newId) = true) := by
    intro f hf
    simp only [decide_eq_true_eq]
    exact hfresh f hf
  have hfindU : (s.files ++ [uploadRec ra xl dx pf newId name spath ts
      ⟨some cat, some desc, some src, some per, some cn⟩]).find?
        (fun f => decide (f.id = newId)) =
      some (uploadRec ra xl dx pf newId name spath ts
        ⟨some cat, some desc, some src, some per, some cn⟩) := by
    rw [List.find?_append, List.find?_eq_none.mpr hne]
    simp [uploadRec]
  have heraseU : (s.files ++ [uploadRec ra xl dx pf newId name spath ts
      ⟨some cat, some desc, some src, some per, some cn⟩]).eraseP
        (fun f => decide (f.id = newId)) = s.files := by
    rw [List.eraseP_append_right _ hne]
    simp [List.eraseP_cons, uploadRec]
  have hdel1 : deleteStep newId pe (uploadStep ra xl dx pf newId name spath ts
      ⟨some cat, some desc, some src, some per, some cn⟩ s).1 =
      (⟨s.files, [], s.upstreamCalls⟩, true, ⟨true, pe spath, true⟩) := by
    have h := deleteStep_found newId pe (uploadStep ra xl dx pf newId name spath ts
      ⟨some cat, some desc, some src, some per, some cn⟩ s).1
      (uploadRec ra xl dx pf newId name spath ts
        ⟨some cat, some desc, some src, some per, some cn⟩) hfindU
    rw [h]
    have hfiles : (uploadStep ra xl dx pf newId name spath ts
        ⟨some cat, some desc, some src, some per, some cn⟩ s).1.files.eraseP
          (fun g => decide (g.id = newId)) = s.files := heraseU
    simp only [hfiles]
    rfl
  refine ⟨rfl, ⟨rfl, ?_⟩, ?_, ⟨hdel1, ?_⟩, ?_, fun anyId anyPe anyS => ?_⟩
  · simp only [toMeta, uploadRec]
    rw [orDefault_some_of_ne cat _ hcat, orDefault_some_nil, orDefault_some_nil,
      orDefault_some_nil, orDefault_some_nil]
  · simp [listFiles, uploadStep]
  · intro fm hfm
    rw [hdel1] at hfm
    simp only [listFiles] at hfm
    obtain ⟨f, hf, rfl⟩ := List.mem_map.mp hfm
    exact hfresh f hf
  · exact deleteStep_none newId pe _ (List.find?_eq_none.mpr hne)
  · simp only [deleteStep]
    cases anyS.files.find? (fun f => decide (f.id = anyId)) <;> rfl

/-- Witness for C7 with a concrete upload over a nonempty collection. -/
theorem roundtrip_C7_witness :
    (uploadStep (.ok "conteudo".data) (.ok []) (.ok []) (.ok [])
      "novo-id".data "novo.txt".data "/tmp/n".data 7
      ⟨some "Saude".data, some "desc".data, some "src".data, some "2024".data,
       some "Caso".data⟩ ⟨[sampleA], [], 0⟩).2.2.category = "Saude".data ∧
    deleteStep "novo-id".data (fun _ => true)
      (uploadStep (.ok "conteudo".data) (.ok []) (.ok []) (.ok [])
        "novo-id".data "novo.txt".data "/tmp/n".data 7
        ⟨some "Saude".data, some "desc".data, some "src".data, some "2024".data,
         some "Caso".data⟩ ⟨[sampleA], [], 0⟩).1 =
      (⟨[sampleA], [], 0⟩, true, ⟨true, true, true⟩) := by
  have h := roundtrip_C7 (.ok "conteudo".data) (.ok []) (.ok []) (.ok [])
    "novo-id".data "novo.txt".data "/tmp/n".data 7
    "Saude".data "desc".data "src".data "2024".data "Caso".data (fun _ => true)
    ⟨[sampleA], [], 0⟩ (by decide) (by decide)
  constructor
  · rw [h.2.1.1, h.2.1.2]
  · exact h.2.2.2.1.1

/-- Claim C10: deleting an id that is not in the collection changes nothing
besides the HTTP response: the state (collection and cache) is untouched,
`writeDb` does not run, no physical file is unlinked, the cache is not
flushed (previously cached answers remain servable, and a subsequent
`/api/ask` behaves exactly as without the delete), yet `{success: true}` is
returned; and conversely the flush only ever happens when a record with the
requested id was actually found. -/
theorem delete_missing_C10 (id : Str) (pe : Str → Bool) (s : ServerState)
    (h : ∀ f ∈ s.files, f.id ≠ id) :
    deleteStep id pe s = (s, true, ⟨false, false, false⟩) ∧
    (∀ key t, cacheLookup key s.cache = some t →
      cacheLookup key ((deleteStep id pe s).1).cache = some t) ∧
    (∀ apiKey gem msg hist,
      askStep (some apiKey) gem msg hist ((deleteStep id pe s).1) =
        askStep (some apiKey) gem msg hist s) ∧
    (∀ (id2 : Str) (pe2 : Str → Bool) (s2 : ServerState),
      (deleteStep id2 pe2 s2).2.2.flushed = true → ∃ f ∈ s2.files, f.id = id2) := by
  have hsame : deleteStep id pe s = (s, true, ⟨false, false, false⟩) := by
    apply deleteStep_none
    rw [List.find?_eq_none]
    intro f hf
    simp only [decide_eq_true_eq]
    exact h f hf
  refine ⟨hsame, ?_, ?_, ?_⟩
  · intro key t ht
    rw [hsame]
    exact ht
  · intro apiKey gem msg hist
    rw [hsame]
  · intro id2 pe2 s2
    simp only [deleteStep]
    cases hf : s2.files.find? (fun f => decide (f.id = id2)) with
    | none => simp
    | some f =>
      intro _
      refine ⟨f, List.mem_of_find?_eq_some hf, ?_⟩
      have hp := List.find?_some hf
      simpa using hp

/-- Witness for C10: a delete of an absent id over a concrete state with a
cached answer. -/
theorem delete_missing_C10_witness :
    deleteStep "nao-existe".data (fun _ => true)
        ⟨[sampleA], [("chave".data, "valor".data)], 3⟩ =
      (⟨[sampleA], [("chave".data, "valor".data)], 3⟩, true, ⟨false, false, false⟩) :=
  (delete_missing_C10 "nao-existe".data (fun _ => true)
    ⟨[sampleA], [("chave".data, "valor".data)], 3⟩ (by decide)).1

theorem askStep_hit (apiKey : Str) (gem : Str → List (Str × Str) → Str → GemOutcome)
    (msg : Str) (hist : List (Str × Str)) (s : ServerState) (t : Str)
    (h : cacheLookup (cacheKey msg hist.length) s.cache = some t) :
    askStep (some apiKey) gem msg hist s = (s, .stream t) := by
  simp only [askStep]
  rw [h]

theorem askStep_miss_success (apiKey : Str)
    (gem : Str → List (Str × Str) → Str → GemOutcome)
    (msg : Str) (hist : List (Str × Str)) (s : ServerState)
    (hmiss : cacheLookup (cacheKey msg hist.length) s.cache = none)
    (hfail : (gem (selectedContext msg s.files) (chatHistory hist) msg).failure = none) :
    askStep (some apiKey) gem msg hist s =
      ({ s with
          upstreamCalls := s.upstreamCalls + 1
          cache := if (concatStrs (gem (selectedContext msg s.files)
                (chatHistory hist) msg).chunks).length > 0
            then (cacheKey msg hist.length,
                  concatStrs (gem (selectedContext msg s.files)
                    (chatHistory hist) msg).chunks) :: s.cache
            else s.cache },
       .stream (concatStrs (gem (selectedContext msg s.files)
         (chatHistory hist) msg).chunks)) := by
  simp only [askStep]
  rw [hmiss, hfail]

theorem askStep_miss_failure (apiKey : Str)
    (gem : Str → List (Str × Str) → Str → GemOutcome)
    (msg : Str) (hist : List (Str × Str)) (s : ServerState) (e : GemErr)
    (hmiss : cacheLookup (cacheKey msg hist.length) s.cache = none)
    (hfail : (gem (selectedContext msg s.files) (chatHistory hist) msg).failure = some e) :
    askStep (some apiKey) gem msg hist s =
      ({ s with upstreamCalls := s.upstreamCalls + 1 },
       .stream (concatStrs (gem (selectedContext msg s.files)
           (chatHistory hist) msg).chunks ++
         (if is429 e then rateLimitMsg else genericErrMsg))) := by
  simp only [askStep]
  rw [hmiss, hfail]

theorem askStep_calls_of_nil_cache (apiKey : Str)
    (gem : Str → List (Str × Str) → Str → GemOutcome)
    (msg : Str) (hist : List (Str × Str)) (s : ServerState)
    (h : s.cache = []) :
    (askStep (some apiKey) gem msg hist s).1.upstreamCalls = s.upstreamCalls + 1 := by
  simp only [askStep]
  rw [h]
  rw [show cacheLookup (cacheKey msg hist.length) [] = none from rfl]
  cases hout : (gem (selectedContext msg s.files) (chatHistory hist) msg).failure <;> rfl

/-- Claim C4 counterexample.  First scenario: the model's streamed answer is
empty, so nothing is cached (`if (fullText.length > 0)`), and two identical
requests make two upstream calls, contradicting "N identical requests cause
exactly one upstream call".  Second scenario: a delete of an id that is not
in the collection between two otherwise-identical requests does not flush
the cache, so the second request replays the cached text and makes no fresh
model call, contradicting "any delete … flushes the cache so the second
request makes a fresh model call". -/
theorem cache_C4_counterexample :
    (askStep (some "k".data) (fun _ _ _ => GemOutcome.mk [] none) "oi".data []
      ((askStep (some "k".data) (fun _ _ _ => GemOutcome.mk [] none) "oi".data []
        ⟨[], [], 0⟩).1)).1.upstreamCalls = 2 ∧
    (askStep (some "k".data) (fun _ _ _ => GemOutcome.mk ["nova".data] none) "oi".data []
      ((deleteStep "zzz".data (fun _ => false)
        ⟨[], [(cacheKey "oi".data 0, "resposta".data)], 0⟩).1)).2 =
      AskResponse.stream "resposta".data ∧
    (askStep (some "k".data) (fun _ _ _ => GemOutcome.mk ["nova".data] none) "oi".data []
      ((deleteStep "zzz".data (fun _ => false)
        ⟨[], [(cacheKey "oi".data 0, "resposta".data)], 0⟩).1)).1.upstreamCalls = 0 := by
  refine ⟨?_, ?_, ?_⟩ <;> rfl

/-- Claim C4 (amended): within the TTL window, a request whose
`(message, history.length)` key is cached replays the cached text verbatim
with no upstream call and no state change; a fresh request whose upstream
call succeeds with a nonempty streamed answer caches it, so an identical
second request (whatever the upstream would now do) replays that text
verbatim with no upstream call; and any upload, or any delete that actually
removes a record, flushes the cache, so the next request always makes a
fresh upstream call. -/
theorem cache_C4_amended (apiKey : Str)
    (gem gem2 : Str → List (Str × Str) → Str → GemOutcome)
    (msg : Str) (hist : List (Str × Str)) (s : ServerState) :
    (∀ t, cacheLookup (cacheKey msg hist.length) s.cache = some t →
      askStep (some apiKey) gem msg hist s = (s, .stream t)) ∧
    (cacheLookup (cacheKey msg hist.length) s.cache = none →
      (gem (selectedContext msg s.files) (chatHistory hist) msg).failure = none →
      concatStrs (gem (selectedContext msg s.files) (chatHistory hist) msg).chunks ≠ [] →
      ((askStep (some apiKey) gem msg hist s).2 =
        .stream (concatStrs (gem (selectedContext msg s.files)
          (chatHistory hist) msg).chunks) ∧
       (askStep (some apiKey) gem msg hist s).1.upstreamCalls = s.upstreamCalls + 1 ∧
       askStep (some apiKey) gem2 msg hist (askStep (some apiKey) gem msg hist s).1 =
         ((askStep (some apiKey) gem msg hist s).1,
          .stream (concatStrs (gem (selectedContext msg s.files)
            (chatHistory hist) msg).chunks)))) ∧
    (∀ ra xl dx pf newId oname spath ts meta s2,
      (askStep (some apiKey) gem2 msg hist
          (uploadStep ra xl dx pf newId oname spath ts meta s2).1).1.upstreamCalls =
        (uploadStep ra xl dx pf newId oname spath ts meta s2).1.upstreamCalls + 1) ∧
    (∀ delId pe s2 f, s2.files.find? (fun g => decide (g.id = delId)) = some f →
      (askStep (some apiKey) gem2 msg hist (deleteStep delId pe s2).1).1.upstreamCalls =
        (deleteStep delId pe s2).1.upstreamCalls + 1) := by
  refine ⟨?_, ?_, ?_, ?_⟩
  · intro t ht
    exact askStep_hit apiKey gem msg hist s t ht
  · intro hmiss hfail hne
    have hlen : (concatStrs (gem (selectedContext msg s.files)
        (chatHistory hist) msg).chunks).length > 0 := List.length_pos.mpr hne
    have h1 := askStep_miss_success apiKey gem msg hist s hmiss hfail
    rw [h1]
    refine ⟨rfl, rfl, ?_⟩
    apply askStep_hit
    simp only [if_pos hlen]
    simp [cacheLookup]
  · intro ra xl dx pf newId oname spath ts meta s2
    exact askStep_calls_of_nil_cache apiKey gem2 msg hist _ rfl
  · intro delId pe s2 f hf
    rw [deleteStep_found delId pe s2 f hf]
    exact askStep_calls_of_nil_cache apiKey gem2 msg hist _ rfl

/-- Witness for C4 (amended): a concrete cache hit is replayed verbatim, and
a concrete fresh nonempty answer counts exactly one upstream call. -/
theorem cache_C4_witness :
    askStep (some "k".data) (fun _ _ _ => GemOutcome.mk [] none) "oi".data []
        ⟨[], [(cacheKey "oi".data 0, "ola".data)], 5⟩ =
      (⟨[], [(cacheKey "oi".data 0, "ola".data)], 5⟩, AskResponse.stream "ola".data) ∧
    (askStep (some "k".data) (fun _ _ _ => GemOutcome.mk ["ok".data] none) "oi".data []
        ⟨[], [], 0⟩).1.upstreamCalls = 0 + 1 := by
  constructor
  · exact (cache_C4_amended "k".data (fun _ _ _ => GemOutcome.mk [] none)
      (fun _ _ _ => GemOutcome.mk [] none) "oi".data []
      ⟨[], [(cacheKey "oi".data 0, "ola".data)], 5⟩).1 "ola".data (by decide)
  · exact ((cache_C4_amended "k".data (fun _ _ _ => GemOutcome.mk ["ok".data] none)
      (fun _ _ _ => GemOutcome.mk [] none) "oi".data [] ⟨[], [], 0⟩).2.1
      rfl rfl (by decide)).2.1

/-- Claim C8: when the API credential is absent, `/api/ask` answers an HTTP
500 JSON error with the state untouched (no upstream call, no streaming);
when the credential is present the response is always a normally-closed
stream, never a protocol-level error; and when the upstream call fails after
streaming some chunks (rate-limited or otherwise), a fixed apology string is
appended to the already-sent partial text and the stream closes normally.
The embedding of `/api/ask` is a total function: no request crashes. -/
theorem ask_errors_C8 (gem : Str → List (Str × Str) → Str → GemOutcome)
    (msg : Str) (hist : List (Str × Str)) (s : ServerState) :
    askStep none gem msg hist s = (s, .jsonError 500 "Server API Key missing".data) ∧
    (∀ k, ∃ s2 body, askStep (some k) gem msg hist s = (s2, .stream body)) ∧
    (∀ k e, cacheLookup (cacheKey msg hist.length) s.cache = none →
      (gem (selectedContext msg s.files) (chatHistory hist) msg).failure = some e →
      askStep (some k) gem msg hist s =
        ({ s with upstreamCalls := s.upstreamCalls + 1 },
         .stream (concatStrs (gem (selectedContext msg s.files)
             (chatHistory hist) msg).chunks ++
           (if is429 e then rateLimitMsg else genericErrMsg)))) := by
  refine ⟨rfl, ?_, ?_⟩
  · intro k
    cases hc : cacheLookup (cacheKey msg hist.length) s.cache with
    | some t => exact ⟨s, t, askStep_hit k gem msg hist s t hc⟩
    | none =>
      cases he : (gem (selectedContext msg s.files) (chatHistory hist) msg).failure with
      | some e => exact ⟨_, _, askStep_miss_failure k gem msg hist s e hc he⟩
      | none => exact ⟨_, _, askStep_miss_success k gem msg hist s hc he⟩
  · intro k e hc he
    exact askStep_miss_failure k gem msg hist s e hc he

/-- Witness for C8: a concrete rate-limited failure after a partial chunk
gets the rate-limit apology appended, as a 200 stream. -/
theorem ask_errors_C8_witness :
    askStep (some "k".data)
        (fun _ _ _ => GemOutcome.mk ["parcial".data] (some ⟨429, "rate".data⟩))
        "oi".data [] ⟨[], [], 0⟩ =
      (⟨[], [], 1⟩, AskResponse.stream ("parcial".data ++ rateLimitMsg)) := by
  have h := (ask_errors_C8
    (fun _ _ _ => GemOutcome.mk ["parcial".data] (some ⟨429, "rate".data⟩))
    "oi".data [] ⟨[], [], 0⟩).2.2 "k".data ⟨429, "rate".data⟩ rfl rfl
  exact h

/-- Claim C5 counterexample.  First input: the answer text
`{"chart":true,"message":""}` has a `message` field that is present but
empty; the claim demands the display text equal that parsed `message` field
(the empty string), but the code's `parsed.message || …` falls through on
the falsy value and returns the original (nonempty) text verbatim.  Second
input: `{"chart":0}` has a `chart` field that is present but falsy; the
claim demands that chart be returned, but `if (parsed.chart)` rejects it and
the code returns no chart. -/
theorem chart_C5_counterexample :
    extractChart parseCE "\x7b\"chart\":true,\"message\":\"\"\x7d".data =
      { text := .str "\x7b\"chart\":true,\"message\":\"\"\x7d".data,
        chartData := some (.bool true) } ∧
    "\x7b\"chart\":true,\"message\":\"\"\x7d".data ≠ ([] : Str) ∧
    (extractChart parseCE "\x7b\"chart\":0\x7d".data).chartData = none ∧
    getField (.obj [("chart".data, .num 0)]) "chart".data = some (.num 0) := by
  refine ⟨rfl, by decide, rfl, rfl⟩

/-- Claim C5 (amended): the Chart Extractor is a total function (never
throws) and, for every parser behaviour and every answer text: with no
brace-delimited match, or a parse failure on the fence-stripped match, or a
parsed object whose `chart` field is absent or falsy, it returns the full
original text and no chart; and on a truthy `chart` field it returns that
chart, with display text equal to the parsed `message` field when that is
present and truthy, else the fixed placeholder exactly when the original
text contains a code fence, else the original text verbatim. -/
theorem chart_C5_amended (parseJson : Str → Option Json) (fullText : Str) :
    (braceMatch fullText = none →
      extractChart parseJson fullText = { text := .str fullText, chartData := none }) ∧
    (∀ m, braceMatch fullText = some m → parseJson (stripFences m) = none →
      extractChart parseJson fullText = { text := .str fullText, chartData := none }) ∧
    (∀ m parsed, braceMatch fullText = some m → parseJson (stripFences m) = some parsed →
      getField parsed "chart".data = none →
      extractChart parseJson fullText = { text := .str fullText, chartData := none }) ∧
    (∀ m parsed cv, braceMatch fullText = some m →
      parseJson (stripFences m) = some parsed →
      getField parsed "chart".data = some cv → truthy cv = false →
      extractChart parseJson fullText = { text := .str fullText, chartData := none }) ∧
    (∀ m parsed cv, braceMatch fullText = some m →
      parseJson (stripFences m) = some parsed →
      getField parsed "chart".data = some cv → truthy cv = true →
      ((extractChart parseJson fullText).chartData = some cv ∧
       (extractChart parseJson fullText).text =
         (match getField parsed "message".data with
          | some msgVal =>
            if truthy msgVal then msgVal
            else if strIncludes fullText "```".data then .str "Gráfico gerado:".data
            else .str fullText
          | none =>
            if strIncludes fullText "```".data then .str "Gráfico gerado:".data
            else .str fullText))) := by
  refine ⟨?_, ?_, ?_, ?_, ?_⟩
  · intro hb
    simp only [extractChart]
    rw [hb]
  · intro m hb hp
    simp [extractChart, hb, hp]
  · intro m parsed hb hp hg
    simp [extractChart, hb, hp, hg]
  · intro m parsed cv hb hp hg ht
    simp [extractChart, hb, hp, hg, ht]
  · intro m parsed cv hb hp hg ht
    simp [extractChart, hb, hp, hg, ht]

/-- Witness for C5 (amended) at concrete inputs: a text with no JSON object
comes back unchanged with no chart, and a brace-delimited object with a
truthy `chart` field and no `message` yields that chart with the original
text (no code fence present). -/
theorem chart_C5_witness :
    extractChart (fun _ => none) "sem grafico aqui".data =
      { text := .str "sem grafico aqui".data, chartData := none } ∧
    (extractChart parseCE "\x7b\"chart\":true,\"message\":\"\"\x7d".data).chartData =
      some (.bool true) := by
  constructor
  · exact (chart_C5_amended (fun _ => none) "sem grafico aqui".data).1 rfl
  · exact ((chart_C5_amended parseCE "\x7b\"chart\":true,\"message\":\"\"\x7d".data).2.2.2.2
      "\x7b\"chart\":true,\"message\":\"\"\x7d".data
      (.obj [("chart".data, .bool true), ("message".data, .str [])])
      (.bool true) rfl rfl rfl rfl).1
